/-
Verification of the MUD server (gpt-go-mud).

The repository contains three evolutionary variants of one Go program:
two concatenated variants in src/mud.go (the second of which adds the
room graph: positionHash, room, addRoom, addExit, move, look, and
createMap) and an earlier variant in src/unnamed/part_000 (whose `say`
sends a "Say what?" error on an empty message and whose `quit` is a
stub).  The shallow embedding below follows the sources line by line.

Modelling conventions:
  - A Go `map[string]T` of pointers is an association list
    `List (String × Nat)` whose values are indices ("references") into
    a heap `List T`; mutation through a pointer is `List.set` on the
    heap, so aliasing behaves as in Go.
  - `lookupA`, `insertA`, `eraseA` model map read, insert and delete;
    `eraseA` removes the (unique, in every reachable state) binding.
  - Go integers are `Int`; Go `len` on strings is `String.utf8ByteSize`
    (bytes, exactly as Go counts).
  - Go code that would panic (nil-pointer dereference) is modelled by
    `Option`, with `none` as the panic.
-/

import Mathlib

/-! ### Association lists: the model of Go `map[string]·` -/

def lookupA {α : Type} : List (String × α) → String → Option α
  | [], _ => none
  | (k, v) :: rest, key => if k = key then some v else lookupA rest key

def insertA {α : Type} : List (String × α) → String → α → List (String × α)
  | [], key, v => [(key, v)]
  | (k, w) :: rest, key, v =>
      if k = key then (key, v) :: rest else (k, w) :: insertA rest key v

def eraseA {α : Type} : List (String × α) → String → List (String × α)
  | [], _ => []
  | (k, v) :: rest, key => if k = key then rest else (k, v) :: eraseA rest key

theorem lookupA_insertA_self {α : Type} (l : List (String × α)) (k : String) (v : α) :
    lookupA (insertA l k v) k = some v := by
  induction l with
  | nil => simp [insertA, lookupA]
  | cons h t ih =>
      by_cases hk : h.1 = k
      · simp [insertA, hk, lookupA]
      · simp [insertA, hk, lookupA, ih]

theorem lookupA_insertA_ne {α : Type} (l : List (String × α)) (k k' : String) (v : α)
    (h : k' ≠ k) : lookupA (insertA l k v) k' = lookupA l k' := by
  have hkk : ¬(k = k') := fun he => h he.symm
  induction l with
  | nil => simp [insertA, lookupA, hkk]
  | cons hd t ih =>
      by_cases hk : hd.1 = k
      · subst hk
        rw [insertA, if_pos rfl, lookupA, lookupA, if_neg hkk, if_neg hkk]
      · by_cases hk' : hd.1 = k'
        · rw [insertA, if_neg hk]
          rcases hd with ⟨k0, v0⟩
          simp only at hk'
          subst hk'
          rw [lookupA, if_pos rfl, lookupA, if_pos rfl]
        · rw [insertA, if_neg hk]
          rcases hd with ⟨k0, v0⟩
          simp only at hk'
          rw [lookupA, if_neg hk', lookupA, if_neg hk', ih]

theorem lookupA_eraseA_ne {α : Type} (l : List (String × α)) (k k' : String)
    (h : k' ≠ k) : lookupA (eraseA l k) k' = lookupA l k' := by
  induction l with
  | nil => simp [eraseA]
  | cons hd t ih =>
      by_cases hk : hd.1 = k
      · subst hk
        have hne : ¬(hd.1 = k') := fun he => h (he.symm)
        rw [eraseA, if_pos rfl, lookupA, if_neg hne]
      · rcases hd with ⟨k0, v0⟩
        simp only at hk
        by_cases hk' : k0 = k'
        · rw [eraseA, if_neg hk, lookupA, if_pos hk', lookupA, if_pos hk']
        · rw [eraseA, if_neg hk, lookupA, if_neg hk', lookupA, if_neg hk', ih]

theorem lookupA_eq_none_iff {α : Type} (l : List (String × α)) (k : String) :
    lookupA l k = none ↔ k ∉ l.map Prod.fst := by
  induction l with
  | nil => simp [lookupA]
  | cons hd t ih =>
      by_cases hk : hd.1 = k
      · simp [lookupA, hk]
      · have hk2 : ¬(k = hd.1) := fun he => hk he.symm
        simp [lookupA, hk, ih, hk2]

theorem lookupA_eraseA_self {α : Type} (l : List (String × α)) (k : String)
    (hnd : (l.map Prod.fst).Nodup) : lookupA (eraseA l k) k = none := by
  induction l with
  | nil => simp [eraseA, lookupA]
  | cons hd t ih =>
      simp only [List.map_cons, List.nodup_cons] at hnd
      by_cases hk : hd.1 = k
      · subst hk
        rw [eraseA, if_pos rfl, lookupA_eq_none_iff]
        exact hnd.1
      · rw [eraseA, if_neg hk, lookupA, if_neg hk]
        exact ih hnd.2

theorem eraseA_sublist {α : Type} (l : List (String × α)) (k : String) :
    (eraseA l k).Sublist l := by
  induction l with
  | nil => simp [eraseA]
  | cons hd t ih =>
      by_cases hk : hd.1 = k
      · rw [eraseA, if_pos hk]
        exact (List.sublist_cons_self hd t)
      · rw [eraseA, if_neg hk]
        exact ih.cons₂ hd

theorem insertA_of_absent {α : Type} (l : List (String × α)) (k : String) (v : α)
    (h : lookupA l k = none) : insertA l k v = l ++ [(k, v)] := by
  induction l with
  | nil => simp [insertA]
  | cons hd t ih =>
      rw [lookupA] at h
      by_cases hk : hd.1 = k
      · simp [hk] at h
      · rw [if_neg hk] at h
        rw [insertA, if_neg hk, ih h]
        simp

theorem keys_nodup_eraseA {α : Type} (l : List (String × α)) (k : String)
    (hnd : (l.map Prod.fst).Nodup) : ((eraseA l k).map Prod.fst).Nodup :=
  ((eraseA_sublist l k).map Prod.fst).nodup hnd

theorem mem_eraseA {α : Type} {l : List (String × α)} {k : String} {e : String × α}
    (h : e ∈ eraseA l k) : e ∈ l :=
  (eraseA_sublist l k).mem h

/-! ### `List.set` / `List.get?` helpers (the model of writes through Go pointers) -/

theorem get?_set_self {α : Type} (l : List α) (i : Nat) (a : α) (h : i < l.length) :
    (l.set i a).get? i = some a := by
  induction l generalizing i with
  | nil => simp at h
  | cons hd t ih =>
      cases i with
      | zero => simp [List.set]
      | succ n =>
          simp only [List.length_cons, Nat.succ_lt_succ_iff] at h
          simpa [List.set] using ih n h

theorem get?_set_ne {α : Type} (l : List α) (i j : Nat) (a : α) (h : i ≠ j) :
    (l.set i a).get? j = l.get? j := by
  induction l generalizing i j with
  | nil => simp [List.set]
  | cons hd t ih =>
      cases i with
      | zero =>
          cases j with
          | zero => exact absurd rfl h
          | succ m => simp [List.set]
      | succ n =>
          cases j with
          | zero => simp [List.set]
          | succ m =>
              have : n ≠ m := fun he => h (by rw [he])
              simpa [List.set] using ih n m this

theorem length_filter_split {α : Type} (l : List α) (p : α → Bool) :
    l.length = (l.filter p).length + (l.filter (fun x => !(p x))).length := by
  induction l with
  | nil => simp
  | cons hd t ih =>
      by_cases hp : p hd
      · simp [List.filter, hp, ih]
        omega
      · simp [List.filter, hp, ih]
        omega

/-! ### Decimal formatting and scanning: the model of `fmt.Sprintf("%04d%04d", x, y)`
and `fmt.Sscanf(hash, "%04d%04d", &x, &y)` from src/mud.go (positionHash,
getRoomPositionFromHash).

Go's `%04d` prints the decimal digits of the value, zero-padded on the left to a
minimum total width of 4 (the sign, if any, counts toward the width); values
needing more than 4 characters are printed in full.  Go's scan verb `%04d`
reads an optionally-signed integer from at most the next 4 characters.  Errors
from `Sscanf` are ignored by the source, leaving the affected variables at 0. -/

def natDecimalAux : Nat → Nat → List Char
  | 0, _ => []
  | fuel + 1, n =>
      if n < 10 then [Nat.digitChar n]
      else natDecimalAux fuel (n / 10) ++ [Nat.digitChar (n % 10)]

def natDecimal (n : Nat) : List Char := natDecimalAux (n + 1) n

def fmt04nat (n : Nat) : List Char :=
  if n < 10000 then
    [Nat.digitChar (n / 1000 % 10), Nat.digitChar (n / 100 % 10),
     Nat.digitChar (n / 10 % 10), Nat.digitChar (n % 10)]
  else natDecimal n

def fmt04 (v : Int) : List Char :=
  if 0 ≤ v then fmt04nat v.toNat
  else
    '-' ::
      (if (-v).toNat < 1000 then
        [Nat.digitChar ((-v).toNat / 100 % 10), Nat.digitChar ((-v).toNat / 10 % 10),
         Nat.digitChar ((-v).toNat % 10)]
      else natDecimal (-v).toNat)

def positionHash (x y : Int) : String := String.mk (fmt04 x ++ fmt04 y)

def parseDigits (ds : List Char) : Nat :=
  ds.foldl (fun a c => a * 10 + (c.toNat - 48)) 0

def scanInt4 (cs : List Char) : Option (Int × List Char) :=
  let w := cs.take 4
  if w.head? = some '-' then
    let ds := (w.drop 1).takeWhile Char.isDigit
    if ds = [] then none
    else some (-(parseDigits ds : Int), cs.drop (1 + ds.length))
  else
    let ds := w.takeWhile Char.isDigit
    if ds = [] then none else some ((parseDigits ds : Int), cs.drop ds.length)

def getRoomPositionFromHash (hash : String) : Int × Int :=
  match scanInt4 hash.data with
  | none => (0, 0)
  | some (x, rest) =>
      match scanInt4 rest with
      | none => (x, 0)
      | some (y, _) => (x, y)

theorem digitChar_toNat {m : Nat} (h : m < 10) : (Nat.digitChar m).toNat = 48 + m := by
  interval_cases m <;> decide

theorem digitChar_isDigit {m : Nat} (h : m < 10) : (Nat.digitChar m).isDigit = true := by
  interval_cases m <;> decide

theorem digitChar_ne_dash {m : Nat} (h : m < 10) : Nat.digitChar m ≠ '-' := by
  interval_cases m <;> decide

theorem scanInt4_four_digits (n : Nat) (rest : List Char) (hn : n < 10000) :
    scanInt4 (fmt04nat n ++ rest) = some ((n : Int), rest) := by
  have h3 : n / 1000 % 10 < 10 := Nat.mod_lt _ (by omega)
  have h2 : n / 100 % 10 < 10 := Nat.mod_lt _ (by omega)
  have h1 : n / 10 % 10 < 10 := Nat.mod_lt _ (by omega)
  have h0 : n % 10 < 10 := Nat.mod_lt _ (by omega)
  rw [fmt04nat, if_pos hn]
  rw [scanInt4]
  simp only [List.cons_append, List.take_succ_cons, List.take_zero, List.head?_cons]
  rw [if_neg (by simp [digitChar_ne_dash h3])]
  simp only [List.takeWhile_cons, digitChar_isDigit h3, digitChar_isDigit h2,
    digitChar_isDigit h1, digitChar_isDigit h0, if_true, List.takeWhile_nil]
  simp only [reduceIte, List.cons_ne_self, List.length_cons, List.length_nil]
  rw [if_neg (by simp)]
  have hp : parseDigits [Nat.digitChar (n / 1000 % 10), Nat.digitChar (n / 100 % 10),
      Nat.digitChar (n / 10 % 10), Nat.digitChar (n % 10)] = n := by
    rw [parseDigits]
    simp only [List.foldl]
    rw [digitChar_toNat h3, digitChar_toNat h2, digitChar_toNat h1, digitChar_toNat h0]
    omega
  rw [hp]
  simp

theorem decode_positionHash (x y : Int) (hx0 : 0 ≤ x) (hx1 : x ≤ 9999)
    (hy0 : 0 ≤ y) (hy1 : y ≤ 9999) :
    getRoomPositionFromHash (positionHash x y) = (x, y) := by
  have hxn : x.toNat < 10000 := by omega
  have hyn : y.toNat < 10000 := by omega
  have hfx : fmt04 x = fmt04nat x.toNat := by rw [fmt04, if_pos hx0]
  have hfy : fmt04 y = fmt04nat y.toNat := by rw [fmt04, if_pos hy0]
  have h1 : scanInt4 ((positionHash x y).data) = some ((x.toNat : Int), fmt04nat y.toNat) := by
    show scanInt4 (fmt04 x ++ fmt04 y) = _
    rw [hfx, hfy, scanInt4_four_digits _ _ hxn]
  have h2 : scanInt4 (fmt04nat y.toNat) = some ((y.toNat : Int), []) := by
    have h := scanInt4_four_digits y.toNat [] hyn
    rwa [List.append_nil] at h
  rw [getRoomPositionFromHash, h1]
  simp [h2, Int.toNat_of_nonneg hx0, Int.toNat_of_nonneg hy0]

/-! ### Room graph (the second variant in src/mud.go).

Rooms live on a heap (`World.heap`), and `World.rooms` is the Go map
`map[string]*room` keyed by `positionHash`; a map value is the heap index of
the room, which models the Go pointer.  `createMap` in the source stores the
ten rooms into `m.rooms` directly (it does not call `addRoom`), so the rooms
keep the zero coordinates that `newRoom` gave them. -/

structure Room where
  name : String
  description : String
  x : Int
  y : Int
  exits : List (String × String)
deriving DecidableEq

structure World where
  heap : List Room
  rooms : List (String × Nat)
deriving DecidableEq

def newRoom (name description : String) : Room :=
  { name := name, description := description, x := 0, y := 0, exits := [] }

def addRoom (w : World) (x y : Int) (r : Nat) : World :=
  match w.heap.get? r with
  | none => w
  | some room =>
      { heap := w.heap.set r { room with x := x, y := y },
        rooms := insertA w.rooms (positionHash x y) r }

def dirOffset (dir : String) : Option (Int × Int) :=
  if dir = "north" then some (0, 1)
  else if dir = "east" then some (1, 0)
  else if dir = "south" then some (0, -1)
  else if dir = "west" then some (-1, 0)
  else none

def returnDir (dir : String) : String :=
  if dir = "north" then "south"
  else if dir = "east" then "west"
  else if dir = "south" then "north"
  else if dir = "west" then "east"
  else ""

def addExit (w : World) (r : Nat) (dir : String) : World :=
  match w.heap.get? r with
  | none => w
  | some room =>
      match dirOffset dir with
      | none => w
      | some (dx, dy) =>
          let key := positionHash (room.x + dx) (room.y + dy)
          match lookupA w.rooms key with
          | none => w
          | some r2 =>
              let heap1 := w.heap.set r { room with exits := insertA room.exits dir key }
              match heap1.get? r2 with
              | none => { w with heap := heap1 }
              | some room2 =>
                  let backKey := positionHash room.x room.y
                  let room2b : Room := { room2 with exits := insertA room2.exits (returnDir dir) backKey }
                  { w with heap := heap1.set r2 room2b }

def getRoomByPosition (w : World) (x y : Int) : Option Nat :=
  lookupA w.rooms (positionHash x y)

structure Player where
  health : Int
  mana : Int
  x : Int
  y : Int
deriving DecidableEq

def lookExits (w : World) : List (String × String) → List String
  | [] => []
  | (dir, key) :: rest =>
      match lookupA w.rooms key with
      | none => lookExits w rest
      | some r2 =>
          match w.heap.get? r2 with
          | none => lookExits w rest
          | some room2 => (dir ++ " - " ++ room2.name ++ "\n") :: lookExits w rest

def look (w : World) (p : Player) : List String :=
  match lookupA w.rooms (positionHash p.x p.y) with
  | none => ["You are lost in the void.\n"]
  | some r =>
      match w.heap.get? r with
      | none => []
      | some room =>
          [room.name ++ "\n", room.description ++ "\n", "Exits:\n"] ++ lookExits w room.exits

/-- Model of `move` from src/mud.go.  The source evaluates
`m.getRoomByPosition(p.x, p.y).exits[dir]`; when no room exists at the
player's position, `getRoomByPosition` returns a nil `*room` and the `.exits`
field access panics with a nil-pointer dereference.  That panic is modelled by
`none`. -/
def move (w : World) (p : Player) (dir : String) : Option (Player × List String) :=
  match getRoomByPosition w p.x p.y with
  | none => none
  | some r =>
      match w.heap.get? r with
      | none => none
      | some room =>
          match lookupA room.exits dir with
          | none => some (p, ["You cannot go that way.\n"])
          | some exitHash =>
              let pos := getRoomPositionFromHash exitHash
              let p2 := { p with x := pos.1, y := pos.2 }
              some (p2, ("You move " ++ dir ++ ".\n") :: look w p2)

def createMapWorld : World :=
  let w0 : World :=
    { heap :=
        [newRoom "Mall Entrance" "The mall entrance is bustling with people coming and going.",
         newRoom "Directory" "The directory is a large board listing all the stores in the mall.",
         newRoom "Food Court" "The food court is full of the smells and sounds of various restaurants.",
         newRoom "Arcade" "The arcade is filled with flashing lights and the sounds of games.",
         newRoom "Restroom" "The restroom is clean and well-maintained.",
         newRoom "Toy Store" "The toy store is filled with rows of colorful toys and games.",
         newRoom "Electronics Store" "The electronics store is full of the latest gadgets and technology.",
         newRoom "Clothing Store" "The clothing store is full of racks of clothes in the latest styles.",
         newRoom "Shoe Store" "The shoe store is filled with rows of shoes of all shapes, sizes, and colors.",
         newRoom "Sporting Goods Store" "The sporting goods store is full of a wide variety of sports equipment and apparel."],
      rooms :=
        [(positionHash 0 0, 0), (positionHash 1 0, 1), (positionHash 2 0, 2),
         (positionHash 3 0, 3), (positionHash 3 1, 4), (positionHash 3 2, 5),
         (positionHash 2 2, 6), (positionHash 1 2, 7), (positionHash 0 2, 8),
         (positionHash 0 1, 9)] }
  [((0 : Nat), "north"), (0, "south"), (1, "west"), (1, "east"), (2, "north"), (2, "south"),
   (2, "west"), (3, "west"), (3, "east"), (4, "south"), (4, "east"), (5, "west"),
   (5, "north"), (6, "west"), (6, "south"), (7, "west"), (7, "north"), (8, "west"),
   (8, "north"), (9, "west"), (9, "north")].foldl (fun w rd => addExit w rd.1 rd.2) w0

/-! ### Sessions and the World Registry (first variant in src/mud.go;
`sayP0` is from src/unnamed/part_000).

A `Conn` is the Go `connection` struct: `addr` is the fixed
`conn.RemoteAddr().String()`, `outbuf` records the strings passed to
`connection.write` in order, and `closed` records whether `conn.Close()` was
called.  `MudState.heap` is the heap of connection objects and
`MudState.conns` is the Go map `mud.conns` (values are heap indices, the
model of Go pointers). -/

inductive ConnState
  | login
  | password
  | playing
  | dead
deriving DecidableEq

structure Conn where
  addr : String
  name : String
  state : ConnState
  player : Option Player
  outbuf : List String
  closed : Bool
deriving DecidableEq

structure MudState where
  heap : List Conn
  conns : List (String × Nat)
deriving DecidableEq

def writeC (m : MudState) (ref : Nat) (msg : String) : MudState :=
  match m.heap.get? ref with
  | none => m
  | some c => { m with heap := m.heap.set ref { c with outbuf := c.outbuf ++ [msg] } }

/-- The `for _, conn := range m.conns { if conn.state == statePlaying { conn.write(...) } }`
loop shared by `say`, `quit` (and part_000's `broadcast`). -/
def broadcastList (h : List Conn) (entries : List (String × Nat)) (msg : String) : List Conn :=
  match entries with
  | [] => h
  | kr :: rest =>
      let h2 :=
        match h.get? kr.2 with
        | some c2 =>
            if c2.state = ConnState.playing then h.set kr.2 { c2 with outbuf := c2.outbuf ++ [msg] }
            else h
        | none => h
      broadcastList h2 rest msg

/-- Model of `handleLogin` from src/mud.go.  Go mutates `m.conns` and the
connection `c` in place; the model returns the new map and the new
connection value, which `processLine` writes back to the heap at `ref`
(the pointer to `c`).  Go's `len` counts bytes, hence `utf8ByteSize`. -/
def handleLogin (conns : List (String × Nat)) (c : Conn) (ref : Nat) (cmd : String) :
    List (String × Nat) × Conn :=
  let c1 : Conn := { c with name := cmd }
  if c1.name.utf8ByteSize < 3 then
    (conns, { c1 with outbuf := c1.outbuf ++ ["Name must be at least 3 characters.\nEnter your name: "] })
  else if (lookupA conns c1.name).isSome then
    (conns, { c1 with outbuf := c1.outbuf ++ ["Name is already in use.\nEnter your name: "] })
  else
    let conns2 := eraseA (insertA conns c1.name ref) c1.addr
    let c2 : Conn := { c1 with outbuf := c1.outbuf ++ ["Enter your password: "], state := ConnState.password }
    (conns2, c2)

def handlePassword (c : Conn) (cmd : String) : Conn :=
  if cmd.utf8ByteSize < 5 || !(cmd.data.any Char.isDigit) then
    { c with outbuf := c.outbuf ++ ["Password must be at least 5 characters and contain a number.\nEnter your password: "] }
  else
    let c1 : Conn := { c with player := some { health := 0, mana := 0, x := 0, y := 0 } }
    { c1 with outbuf := c1.outbuf ++ ["Welcome, " ++ c1.name ++ "!\n\n"], state := ConnState.playing }

def whoLines (h : List Conn) : List (String × Nat) → List String
  | [] => []
  | kr :: rest =>
      match h.get? kr.2 with
      | some c2 =>
          if c2.state = ConnState.playing then ("- " ++ c2.name ++ "\n") :: whoLines h rest
          else whoLines h rest
      | none => whoLines h rest

def who (m : MudState) (ref : Nat) (c : Conn) : MudState :=
  let c2 : Conn := { c with outbuf := c.outbuf ++ ["Connected players:\n"] ++ whoLines m.heap m.conns }
  { m with heap := m.heap.set ref c2 }

/-- Model of `say` from src/mud.go: an empty argument list is a bare
`return` (no message to anyone), otherwise the text is delivered to every
connection in the playing state, the caller included. -/
def say (m : MudState) (c : Conn) (args : List String) : MudState :=
  if args.isEmpty then m
  else
    let msg := c.name ++ " says: " ++ String.intercalate " " args ++ "\n"
    { m with heap := broadcastList m.heap m.conns msg }

/-- Model of `say` from src/unnamed/part_000: an empty argument list sends
"Say what?\n" to the caller only; otherwise it broadcasts exactly as the
mud.go variant does (via part_000's `broadcast` helper). -/
def sayP0 (m : MudState) (ref : Nat) (c : Conn) (args : List String) : MudState :=
  if args.isEmpty then writeC m ref "Say what?\n"
  else
    let msg := c.name ++ " says: " ++ String.intercalate " " args ++ "\n"
    { m with heap := broadcastList m.heap m.conns msg }

/-- Model of `quit` from src/mud.go: farewell to the caller, delete both the
name key and the endpoint-address key, close the connection, state to
`dead`, then broadcast the departure notice over the post-deletion map. -/
def quit (m : MudState) (ref : Nat) (c : Conn) : MudState :=
  let c1 : Conn := { c with outbuf := c.outbuf ++ ["Bye!\n"], closed := true, state := ConnState.dead }
  let conns2 := eraseA (eraseA m.conns c.name) c.addr
  let heap1 := m.heap.set ref c1
  { heap := broadcastList heap1 conns2 (c.name ++ " has quit.\n"), conns := conns2 }

/-- The status suffix `"%s: %d/%d > "`.  In every reachable Playing state
`c.player` is non-nil; on a nil player Go would panic, which no claim
exercises, so the `none` branch is left inert. -/
def statusLine (c : Conn) : String :=
  match c.player with
  | some p => c.name ++ ": " ++ toString p.health ++ "/" ++ toString p.mana ++ " > "
  | none => ""

def handlePlaying (m : MudState) (ref : Nat) (c : Conn) (cmd : String) (args : List String) :
    MudState :=
  let m1 :=
    if cmd = "who" then who m ref c
    else if cmd = "say" then say m c args
    else if cmd = "quit" then quit m ref c
    else writeC m ref "Unknown command.\n"
  match m1.heap.get? ref with
  | none => m1
  | some c2 => if c2.state = ConnState.playing then writeC m1 ref (statusLine c2) else m1

/-- `strings.SplitN(line, " ", 2)`: the text before the first space, and
(if a space exists) the remainder after it. -/
def splitFirst : List Char → List Char × Option (List Char)
  | [] => ([], none)
  | ch :: rest =>
      if ch = ' ' then ([], some rest)
      else
        let r := splitFirst rest
        (ch :: r.1, r.2)

def splitN2 (line : String) : String × Option String :=
  let r := splitFirst line.data
  (String.mk r.1, r.2.map String.mk)

/-- `strings.Split(parts[1], " ")` when the line had a space, else nil. -/
def argsOf (rest : Option String) : List String :=
  match rest with
  | none => []
  | some s => s.splitOn " "

/-- One iteration of the scanner loop in `handleConnection`: empty lines are
skipped, every other line is split into `cmd` (the first token) and `args`,
and dispatched on the connection's current state. -/
def processLine (m : MudState) (ref : Nat) (line : String) : MudState :=
  if line = "" then m
  else
    let parts := splitN2 line
    let cmd := parts.1
    let args := argsOf parts.2
    match m.heap.get? ref with
    | none => m
    | some c =>
        match c.state with
        | ConnState.login =>
            let r := handleLogin m.conns c ref cmd
            { heap := m.heap.set ref r.2, conns := r.1 }
        | ConnState.password => { m with heap := m.heap.set ref (handlePassword c cmd) }
        | ConnState.playing => handlePlaying m ref c cmd args
        | ConnState.dead => m

/-- Model of `handleConnection`: the scanner loop runs until the input
stream ends (the list of lines is exhausted) and then the function simply
returns — the source contains no statement after the loop, so end of input
performs no World Registry removal and no other cleanup. -/
def handleConnection (m : MudState) (ref : Nat) : List String → MudState
  | [] => m
  | line :: rest => handleConnection (processLine m ref line) ref rest

/-! ### Lemmas about the broadcast loop and registry membership -/

def isPlayingRef (h : List Conn) (r : Nat) : Bool :=
  match h.get? r with
  | some c2 => decide (c2.state = ConnState.playing)
  | none => false

/-- The registry entries whose connection is in the playing state: exactly
the recipients of one broadcast delivery. -/
def playingEntries (h : List Conn) (entries : List (String × Nat)) : List (String × Nat) :=
  entries.filter (fun kr => isPlayingRef h kr.2)

theorem isPlayingRef_congr (h1 h2 : List Conn) (r : Nat)
    (he : h1.get? r = h2.get? r) : isPlayingRef h1 r = isPlayingRef h2 r := by
  rw [isPlayingRef, isPlayingRef, he]


theorem broadcastList_get?_not_mem (entries : List (String × Nat)) (h : List Conn)
    (msg : String) (r : Nat) (hr : r ∉ entries.map Prod.snd) :
    (broadcastList h entries msg).get? r = h.get? r := by
  induction entries generalizing h with
  | nil => rfl
  | cons kr rest ih =>
      rcases kr with ⟨k1, r1⟩
      simp only [List.map_cons, List.mem_cons] at hr
      push_neg at hr
      have hkr : r1 ≠ r := fun he => hr.1 he.symm
      rw [broadcastList]
      cases hg : h.get? r1 with
      | none =>
          simp only []
          exact ih h hr.2
      | some c2 =>
          simp only []
          by_cases hp : c2.state = ConnState.playing
          · rw [if_pos hp, ih _ hr.2, get?_set_ne _ _ _ _ hkr]
          · rw [if_neg hp]
            exact ih h hr.2

theorem broadcastList_get?_mem (entries : List (String × Nat)) (h : List Conn)
    (msg : String) (k : String) (r : Nat) (c2 : Conn)
    (hnd : (entries.map Prod.snd).Nodup) (hmem : (k, r) ∈ entries)
    (hr : h.get? r = some c2) :
    (broadcastList h entries msg).get? r =
      some (if c2.state = ConnState.playing
            then { c2 with outbuf := c2.outbuf ++ [msg] } else c2) := by
  induction entries generalizing h with
  | nil => simp at hmem
  | cons kr rest ih =>
      rcases kr with ⟨k1, r1⟩
      simp only [List.map_cons, List.nodup_cons] at hnd
      rw [broadcastList]
      rcases List.mem_cons.mp hmem with heq | hmem'
      · have hk1 : k = k1 := by
          have := congrArg Prod.fst heq
          simpa using this
        have hr1 : r = r1 := by
          have := congrArg Prod.snd heq
          simpa using this
        subst hk1
        subst hr1
        rw [hr]
        simp only []
        by_cases hp : c2.state = ConnState.playing
        · rw [if_pos hp, if_pos hp]
          have hlt : r < h.length := by
            rcases List.get?_eq_some.mp hr with ⟨hl, _⟩
            exact hl
          rw [broadcastList_get?_not_mem rest _ msg r hnd.1, get?_set_self _ _ _ hlt]
        · rw [if_neg hp, if_neg hp, broadcastList_get?_not_mem rest h msg r hnd.1, hr]
      · have hkr : r1 ≠ r := by
          intro he
          exact hnd.1 (he ▸ (List.mem_map.mpr ⟨(k, r), hmem', rfl⟩))
        cases hg : h.get? r1 with
        | none =>
            simp only []
            exact ih h hnd.2 hmem' hr
        | some c3 =>
            simp only []
            by_cases hp : c3.state = ConnState.playing
            · rw [if_pos hp]
              refine ih _ hnd.2 hmem' ?_
              rw [get?_set_ne _ _ _ _ hkr, hr]
            · rw [if_neg hp]
              exact ih h hnd.2 hmem' hr

theorem broadcastList_get?_not_playing (entries : List (String × Nat)) (h : List Conn)
    (msg : String) (r : Nat) (hp : isPlayingRef h r = false) :
    (broadcastList h entries msg).get? r = h.get? r := by
  induction entries generalizing h with
  | nil => rfl
  | cons kr rest ih =>
      rcases kr with ⟨k1, r1⟩
      rw [broadcastList]
      by_cases hkr : r1 = r
      · subst hkr
        cases hg : h.get? r1 with
        | none =>
            simp only []
            rw [ih h hp]
            exact hg
        | some c2 =>
            simp only []
            have hps : ¬(c2.state = ConnState.playing) := by
              rw [isPlayingRef, hg] at hp
              simpa using hp
            rw [if_neg hps, ih h hp]
            exact hg
      · cases hg : h.get? r1 with
        | none =>
            simp only []
            exact ih h hp
        | some c2 =>
            simp only []
            by_cases hps : c2.state = ConnState.playing
            · rw [if_pos hps]
              have hne : (h.set r1 { c2 with outbuf := c2.outbuf ++ [msg] }).get? r = h.get? r :=
                get?_set_ne _ _ _ _ hkr
              rw [ih _ (by rw [isPlayingRef_congr _ h r hne]; exact hp), hne]
            · rw [if_neg hps]
              exact ih h hp

theorem lookupA_ne_none_of_mem {α : Type} {l : List (String × α)} {k : String} {v : α}
    (h : (k, v) ∈ l) : lookupA l k ≠ none := by
  induction l with
  | nil => simp at h
  | cons hd t ih =>
      rcases List.mem_cons.mp h with heq | hmem
      · rw [← heq, lookupA]
        simp
      · by_cases hk : hd.1 = k
        · rcases hd with ⟨k1, v1⟩
          simp only at hk
          rw [lookupA, if_pos hk]
          simp
        · rcases hd with ⟨k1, v1⟩
          simp only at hk
          rw [lookupA, if_neg hk]
          exact ih hmem

theorem filter_snd_eq_single {l : List (String × Nat)} {k0 : String} {r : Nat}
    (hnd : (l.map Prod.snd).Nodup) (hmem : (k0, r) ∈ l) :
    l.filter (fun kr => kr.2 == r) = [(k0, r)] := by
  induction l with
  | nil => simp at hmem
  | cons hd t ih =>
      simp only [List.map_cons, List.nodup_cons] at hnd
      rcases List.mem_cons.mp hmem with heq | hmem'
      · rw [← heq] at hnd ⊢
        rw [List.filter_cons]
        simp only [beq_self_eq_true, if_true]
        have ht : t.filter (fun kr => kr.2 == r) = [] := by
          rw [List.filter_eq_nil_iff]
          intro kr hkr
          simp only [beq_iff_eq]
          intro he
          exact hnd.1 (he ▸ (List.mem_map.mpr ⟨kr, hkr, rfl⟩))
        rw [ht]
      · have hne : hd.2 ≠ r := by
          intro he
          exact hnd.1 (he ▸ (List.mem_map.mpr ⟨(k0, r), hmem', rfl⟩))
        rw [List.filter_cons]
        simp only [beq_iff_eq, hne, if_false]
        exact ih hnd.2 hmem'

theorem length_filter_ne_of_mem {l : List (String × Nat)} {k0 : String} {r : Nat}
    (hnd : (l.map Prod.snd).Nodup) (hmem : (k0, r) ∈ l) :
    l.length = (l.filter (fun kr => !(kr.2 == r))).length + 1 := by
  have hs := length_filter_split l (fun kr => !(kr.2 == r))
  have hdq : (l.filter fun x => !(!(x.2 == r))) = l.filter (fun kr => kr.2 == r) := by
    apply List.filter_congr
    intro a _
    rw [Bool.not_not]
  rw [hdq, filter_snd_eq_single hnd hmem] at hs
  simpa using hs

/-! ### Concrete states used by witnesses and counterexamples -/

def conn0 : Conn :=
  { addr := "1.2.3.4:5", name := "", state := ConnState.login, player := none,
    outbuf := [], closed := false }

def mud0 : MudState := { heap := [conn0], conns := [("1.2.3.4:5", 0)] }

def aliceConn : Conn :=
  { addr := "1.2.3.4:5", name := "alice", state := ConnState.playing,
    player := some { health := 0, mana := 0, x := 0, y := 0 },
    outbuf := [], closed := false }

def bobConn : Conn :=
  { addr := "2.2.2.2:2", name := "bob", state := ConnState.playing,
    player := some { health := 0, mana := 0, x := 0, y := 0 },
    outbuf := [], closed := false }

def eveConn : Conn :=
  { addr := "3.3.3.3:3", name := "", state := ConnState.login, player := none,
    outbuf := [], closed := false }

def mudABE : MudState :=
  { heap := [aliceConn, bobConn, eveConn],
    conns := [("alice", 0), ("bob", 1), ("3.3.3.3:3", 2)] }

/-! ### Claims -/

/-- Claim C10: for all integers x and y with 0 ≤ x ≤ 9999 and 0 ≤ y ≤ 9999,
decoding the coordinate string encoding round-trips exactly:
`getRoomPositionFromHash (positionHash x y) = (x, y)`; each component formats
to exactly 4 characters on this domain, which is where the encode/decode pair
is inverse. -/
theorem C10_hash_roundtrip (x y : Int) (hx0 : 0 ≤ x) (hx1 : x ≤ 9999)
    (hy0 : 0 ≤ y) (hy1 : y ≤ 9999) :
    getRoomPositionFromHash (positionHash x y) = (x, y) :=
  decode_positionHash x y hx0 hx1 hy0 hy1

/-- Witness for C10 at the concrete coordinate (12, 3456). -/
theorem C10_hash_roundtrip_witness :
    (0 : Int) ≤ 12 ∧ (12 : Int) ≤ 9999 ∧ (0 : Int) ≤ 3456 ∧ (3456 : Int) ≤ 9999 ∧
    getRoomPositionFromHash (positionHash 12 3456) = (12, 3456) :=
  ⟨by decide, by decide, by decide, by decide,
   C10_hash_roundtrip 12 3456 (by decide) (by decide) (by decide) (by decide)⟩

/-- Claim C5 (code bug, evaluated at the failing input): in the world built by
`createMap`, a Playing player at coordinate (5, 5) — which names no room —
issuing a movement command does NOT get a normal user-visible response:
`move` evaluates `m.getRoomByPosition(p.x, p.y).exits[dir]`, and the `.exits`
access on the nil `*room` panics (modelled by `none`), while `look` shows the
handling ("lost in the void") the claim describes. -/
theorem C5_move_nil_deref :
    move createMapWorld { health := 0, mana := 0, x := 5, y := 5 } "north" = none ∧
    getRoomByPosition createMapWorld 5 5 = none ∧
    look createMapWorld { health := 0, mana := 0, x := 5, y := 5 } =
      ["You are lost in the void.\n"] := by
  decide

/-- Claim C9 (code bug, evaluated at the failing input): `createMap` assigns
`m.rooms[positionHash(1, 0)] = r2` directly instead of calling `addRoom`, so
the stored room ("Directory") keeps the zero coordinate fields `newRoom` gave
it: its (x, y) is (0, 0), not the (1, 0) of its key. -/
theorem C9_createMap_mismatch :
    lookupA createMapWorld.rooms (positionHash 1 0) = some 1 ∧
    (createMapWorld.heap.get? 1).map (fun r => (r.name, r.x, r.y)) =
      some ("Directory", (0 : Int), (0 : Int)) ∧
    ¬(((0 : Int), (0 : Int)) = ((1 : Int), (0 : Int))) := by
  decide

theorem splitFirst_fst (cs : List Char) :
    (splitFirst cs).1 = cs.takeWhile (fun ch => !(ch == ' ')) := by
  induction cs with
  | nil => rfl
  | cons ch rest ih =>
      by_cases hc : ch = ' '
      · subst hc
        rw [splitFirst, if_pos rfl]
        simp [List.takeWhile_cons]
      · have hb : (ch == ' ') = false := by simpa using hc
        rw [splitFirst, if_neg hc]
        simp only [List.takeWhile_cons, hb, Bool.not_false, if_true]
        simpa using ih

theorem takeWhile_ne_of_mem_space (cs : List Char) (hsp : ' ' ∈ cs) :
    ¬(cs.takeWhile (fun ch => !(ch == ' ')) = cs) := by
  induction cs with
  | nil => simp at hsp
  | cons ch rest ih =>
      by_cases hc : ch = ' '
      · subst hc
        simp [List.takeWhile_cons]
      · have hb : (ch == ' ') = false := by simpa using hc
        rw [List.takeWhile_cons, hb]
        simp only [Bool.not_false, if_true]
        have hsp' : ' ' ∈ rest := by
          rcases List.mem_cons.mp hsp with h1 | h2
          · exact absurd h1.symm hc
          · exact h2
        intro he
        injection he with h1 h2
        exact ih hsp' h2

/-- Claim C4 counterexample: a session in the Login state given the input
line "abc def" (non-empty, containing a space) ends up with the proposed —
and accepted — name "abc", the text before the first space, not the whole
line "abc def" as the claim states. -/
theorem C4_counterexample :
    ((processLine mud0 0 "abc def").heap.get? 0).map Conn.name = some "abc" ∧
    ((processLine mud0 0 "abc def").heap.get? 0).map Conn.state =
      some ConnState.password ∧
    ¬(some "abc" = some "abc def") := by
  decide

/-- Claim C4 amended: in the Login state the input line is tokenized exactly
like every other line (`strings.SplitN(line, " ", 2)` in handleConnection):
the proposed name is the text before the first space, so for every input line
containing a space the proposed name differs from the whole line. -/
theorem C4_amended (line : String) (hsp : ' ' ∈ line.data) :
    (splitN2 line).1 = String.mk (line.data.takeWhile (fun ch => !(ch == ' '))) ∧
    ¬((splitN2 line).1 = line) := by
  constructor
  · simp only [splitN2]
    rw [splitFirst_fst]
  · simp only [splitN2]
    rw [splitFirst_fst]
    intro he
    have hd : line.data.takeWhile (fun ch => !(ch == ' ')) = line.data :=
      congrArg String.data he
    exact takeWhile_ne_of_mem_space line.data hsp hd

/-- Witness for the amended C4 at the line "abc def". -/
theorem C4_amended_witness :
    ' ' ∈ ("abc def" : String).data ∧
    ((splitN2 "abc def").1 =
        String.mk (("abc def" : String).data.takeWhile (fun ch => !(ch == ' '))) ∧
      ¬((splitN2 "abc def").1 = "abc def")) :=
  ⟨by decide, C4_amended "abc def" (by decide)⟩

/-- Claim C1 counterexample: a session in the Login state whose input stream
ends (here after one rejected name attempt "ab") keeps its World Registry
entry under its endpoint-address key: `handleConnection` performs no removal
when the scanner loop ends, so the claimed cleanup never happens. -/
theorem C1_counterexample :
    lookupA (handleConnection mud0 0 ["ab"]).conns "1.2.3.4:5" = some 0 ∧
    ((handleConnection mud0 0 ["ab"]).heap.get? 0).map Conn.state =
      some ConnState.login := by
  decide

theorem processLine_login_keeps_entry (m : MudState) (ref : Nat) (addr : String)
    (line : String)
    (hreg : lookupA m.conns addr = some ref)
    (hst : (m.heap.get? ref).map Conn.state = some ConnState.login)
    (hl : ((splitN2 line).1).utf8ByteSize < 3) :
    lookupA (processLine m ref line).conns addr = some ref ∧
    ((processLine m ref line).heap.get? ref).map Conn.state = some ConnState.login := by
  by_cases he : line = ""
  · simp only [processLine, if_pos he]
    exact ⟨hreg, hst⟩
  · cases hget : m.heap.get? ref with
    | none =>
        rw [hget] at hst
        simp at hst
    | some c =>
        rw [hget] at hst
        have hcs : c.state = ConnState.login := by simpa using hst
        have hlt : ref < m.heap.length := by
          rcases List.get?_eq_some.mp hget with ⟨h1, _⟩
          exact h1
        simp only [processLine, if_neg he, hget, hcs]
        simp only [handleLogin]
        rw [if_pos (by simpa using hl)]
        refine ⟨hreg, ?_⟩
        rw [get?_set_self _ _ _ hlt]
        simp [hcs]

/-- Claim C1 amended: when a session's input stream ends, `handleConnection`
performs no World Registry removal at all (the only removal in the program is
inside `quit`); in particular a session whose input ends while still in a
pre-Playing state leaves its registry entry behind.  Proved for the Login
state: after any sequence of lines whose first token is shorter than 3 bytes
followed by end of input, the entry under the endpoint-address key is still
present and the session is still in Login. -/
theorem C1_amended (m : MudState) (ref : Nat) (addr : String) (lines : List String)
    (hreg : lookupA m.conns addr = some ref)
    (hst : (m.heap.get? ref).map Conn.state = some ConnState.login)
    (hl : ∀ l ∈ lines, ((splitN2 l).1).utf8ByteSize < 3) :
    lookupA (handleConnection m ref lines).conns addr = some ref ∧
    ((handleConnection m ref lines).heap.get? ref).map Conn.state =
      some ConnState.login := by
  induction lines generalizing m with
  | nil => exact ⟨hreg, hst⟩
  | cons line rest ih =>
      rw [handleConnection]
      have hstep := processLine_login_keeps_entry m ref addr line hreg hst (hl line (by simp))
      exact ih _ hstep.1 hstep.2 (fun l hml => hl l (by simp [hml]))

/-- Witness for the amended C1: the session registered under "1.2.3.4:5",
fed two failing name attempts and then end of input, keeps its registry
entry and stays in the Login state. -/
theorem C1_amended_witness :
    lookupA mud0.conns "1.2.3.4:5" = some 0 ∧
    (mud0.heap.get? 0).map Conn.state = some ConnState.login ∧
    (∀ l ∈ ["ab", "x"], ((splitN2 l).1).utf8ByteSize < 3) ∧
    (lookupA (handleConnection mud0 0 ["ab", "x"]).conns "1.2.3.4:5" = some 0 ∧
      ((handleConnection mud0 0 ["ab", "x"]).heap.get? 0).map Conn.state =
        some ConnState.login) :=
  ⟨by decide, by decide, by decide,
   C1_amended mud0 0 "1.2.3.4:5" ["ab", "x"] (by decide) (by decide) (by decide)⟩

/-- Claim C3: for every name processed in the Login state the rules are
checked in order: a name shorter than 3 bytes re-prompts, leaves the registry
unchanged and the session in Login (this branch fires before the collision
check); a name that already keys a registry entry re-prompts, leaves the
registry unchanged and the session in Login; otherwise the registry entry is
moved from the provisional endpoint key to the name key — afterwards the name
key maps to the session, the endpoint key maps to nothing, and every registry
entry for the session is keyed by the name — the session's name is set, and
the state becomes Password. -/
theorem C3_handleLogin (conns : List (String × Nat)) (c : Conn) (ref : Nat) (name : String)
    (hstate : c.state = ConnState.login)
    (hnd : (conns.map Prod.fst).Nodup)
    (haddr : lookupA conns c.addr = some ref)
    (honly : ∀ kr ∈ conns, kr.2 = ref → kr.1 = c.addr) :
    (name.utf8ByteSize < 3 →
      (handleLogin conns c ref name).1 = conns ∧
      (handleLogin conns c ref name).2.state = ConnState.login ∧
      (handleLogin conns c ref name).2.outbuf =
        c.outbuf ++ ["Name must be at least 3 characters.\nEnter your name: "]) ∧
    (¬(name.utf8ByteSize < 3) → (lookupA conns name).isSome = true →
      (handleLogin conns c ref name).1 = conns ∧
      (handleLogin conns c ref name).2.state = ConnState.login ∧
      (handleLogin conns c ref name).2.outbuf =
        c.outbuf ++ ["Name is already in use.\nEnter your name: "]) ∧
    (¬(name.utf8ByteSize < 3) → lookupA conns name = none →
      lookupA (handleLogin conns c ref name).1 name = some ref ∧
      lookupA (handleLogin conns c ref name).1 c.addr = none ∧
      (∀ kr ∈ (handleLogin conns c ref name).1, kr.2 = ref → kr.1 = name) ∧
      (handleLogin conns c ref name).2.name = name ∧
      (handleLogin conns c ref name).2.state = ConnState.password) := by
  refine ⟨?_, ?_, ?_⟩
  · intro hshort
    simp only [handleLogin]
    rw [if_pos (by simpa using hshort)]
    exact ⟨rfl, by simpa using hstate, by simp⟩
  · intro hlong hsome
    simp only [handleLogin]
    rw [if_neg (by simpa using hlong), if_pos (by simpa using hsome)]
    exact ⟨rfl, by simpa using hstate, by simp⟩
  · intro hlong hnone
    have hne : name ≠ c.addr := by
      intro he
      rw [he, haddr] at hnone
      cases hnone
    have hmemname : name ∉ conns.map Prod.fst := (lookupA_eq_none_iff conns name).mp hnone
    have hknd2 : ((insertA conns name ref).map Prod.fst).Nodup := by
      rw [insertA_of_absent _ _ _ hnone, List.map_append, List.nodup_append]
      refine ⟨hnd, by simp, ?_⟩
      intro a ha hb
      simp only [List.map_cons, List.map_nil, List.mem_singleton] at hb
      subst hb
      exact hmemname ha
    have herased : lookupA (eraseA (insertA conns name ref) c.addr) c.addr = none :=
      lookupA_eraseA_self _ _ hknd2
    simp only [handleLogin]
    rw [if_neg (by simpa using hlong), if_neg (by simp [hnone])]
    refine ⟨?_, ?_, ?_, by simp, by simp⟩
    · rw [lookupA_eraseA_ne _ _ _ hne, lookupA_insertA_self]
    · exact herased
    · rintro ⟨k1, r1⟩ hmem hkr
      simp only at hkr
      subst hkr
      have hmem1 : (k1, r1) ∈ insertA conns name r1 := mem_eraseA hmem
      rw [insertA_of_absent _ _ _ hnone] at hmem1
      rcases List.mem_append.mp hmem1 with hin | hsingle
      · have hk1 : k1 = c.addr := honly (k1, r1) hin rfl
        subst hk1
        exact absurd herased (lookupA_ne_none_of_mem hmem)
      · simpa using hsingle

/-- Witness for C3: session registered under "1.2.3.4:5" chooses the fresh
name "bob" of length 3, and the registry entry moves to the name key. -/
theorem C3_handleLogin_witness :
    conn0.state = ConnState.login ∧
    (mud0.conns.map Prod.fst).Nodup ∧
    lookupA mud0.conns conn0.addr = some 0 ∧
    (∀ kr ∈ mud0.conns, kr.2 = 0 → kr.1 = conn0.addr) ∧
    (¬(("bob" : String).utf8ByteSize < 3) → lookupA mud0.conns "bob" = none →
      lookupA (handleLogin mud0.conns conn0 0 "bob").1 "bob" = some 0 ∧
      lookupA (handleLogin mud0.conns conn0 0 "bob").1 conn0.addr = none ∧
      (∀ kr ∈ (handleLogin mud0.conns conn0 0 "bob").1, kr.2 = 0 → kr.1 = "bob") ∧
      (handleLogin mud0.conns conn0 0 "bob").2.name = "bob" ∧
      (handleLogin mud0.conns conn0 0 "bob").2.state = ConnState.password) :=
  ⟨by decide, by decide, by decide, by decide,
   (C3_handleLogin mud0.conns conn0 0 "bob" (by decide) (by decide) (by decide)
      (by decide)).2.2⟩

/-- Claim C2: when a Playing session issues quit, the caller is sent the
farewell "Bye!\n", the session's registry entries under its name key and its
original endpoint-address key are both removed, the connection's output side
is closed, the state becomes Disconnected (stateDead), and the departure
notice is delivered to exactly the remaining registered sessions that are in
the Playing state (non-Playing sessions receive nothing). -/
theorem C2_quit (m : MudState) (ref : Nat) (c : Conn)
    (hget : m.heap.get? ref = some c)
    (hplay : c.state = ConnState.playing)
    (hname : lookupA m.conns c.name = some ref)
    (hknd : (m.conns.map Prod.fst).Nodup)
    (hvnd : (m.conns.map Prod.snd).Nodup)
    (honly : ∀ kr ∈ m.conns, kr.2 = ref → (kr.1 = c.name ∨ kr.1 = c.addr)) :
    (quit m ref c).conns = eraseA (eraseA m.conns c.name) c.addr ∧
    lookupA (quit m ref c).conns c.name = none ∧
    lookupA (quit m ref c).conns c.addr = none ∧
    (quit m ref c).heap.get? ref =
      some { c with outbuf := c.outbuf ++ ["Bye!\n"], closed := true,
                    state := ConnState.dead } ∧
    (∀ kr ∈ (quit m ref c).conns, ∀ c2, m.heap.get? kr.2 = some c2 →
      (quit m ref c).heap.get? kr.2 =
        some (if c2.state = ConnState.playing
              then { c2 with outbuf := c2.outbuf ++ [c.name ++ " has quit.\n"] }
              else c2)) := by
  have hsub2 : (eraseA (eraseA m.conns c.name) c.addr).Sublist m.conns :=
    (eraseA_sublist _ _).trans (eraseA_sublist _ _)
  have hvnd2 : ((eraseA (eraseA m.conns c.name) c.addr).map Prod.snd).Nodup :=
    (hsub2.map Prod.snd).nodup hvnd
  have hlookaddr : lookupA (eraseA (eraseA m.conns c.name) c.addr) c.addr = none :=
    lookupA_eraseA_self _ _ (keys_nodup_eraseA _ _ hknd)
  have hlookname : lookupA (eraseA (eraseA m.conns c.name) c.addr) c.name = none := by
    by_cases haa : c.name = c.addr
    · rw [haa]
      exact lookupA_eraseA_self _ _ (keys_nodup_eraseA _ _ hknd)
    · rw [lookupA_eraseA_ne _ _ _ haa]
      exact lookupA_eraseA_self _ _ hknd
  have hrefnot : ∀ kr ∈ eraseA (eraseA m.conns c.name) c.addr, kr.2 ≠ ref := by
    rintro ⟨k1, r1⟩ hmem hkr
    rcases honly (k1, r1) (mem_eraseA (mem_eraseA hmem)) hkr with hk | hk
    · simp only at hk
      subst hk
      exact absurd hlookname (lookupA_ne_none_of_mem hmem)
    · simp only at hk
      subst hk
      exact absurd hlookaddr (lookupA_ne_none_of_mem hmem)
  have hlt : ref < m.heap.length := by
    rcases List.get?_eq_some.mp hget with ⟨h1, _⟩
    exact h1
  have hrefmem : ref ∉ (eraseA (eraseA m.conns c.name) c.addr).map Prod.snd := by
    intro hmem
    rcases List.mem_map.mp hmem with ⟨kr, hkr, hkr2⟩
    exact hrefnot kr hkr hkr2
  refine ⟨rfl, hlookname, hlookaddr, ?_, ?_⟩
  · simp only [quit]
    rw [broadcastList_get?_not_mem _ _ _ _ hrefmem, get?_set_self _ _ _ hlt]
  · intro kr hmem c2 hc2
    have hmem2 : kr ∈ eraseA (eraseA m.conns c.name) c.addr := hmem
    have hkne : kr.2 ≠ ref := hrefnot kr hmem2
    have hh1 : (m.heap.set ref { c with outbuf := c.outbuf ++ ["Bye!\n"], closed := true, state := ConnState.dead }).get? kr.2 = some c2 := by
      rw [get?_set_ne _ _ _ _ (fun he => hkne he.symm)]
      exact hc2
    have hb := broadcastList_get?_mem (eraseA (eraseA m.conns c.name) c.addr) _
      (c.name ++ " has quit.\n") kr.1 kr.2 c2 hvnd2 (by exact hmem2) hh1
    exact hb

/-- Witness for C2: alice (Playing, registered under her name) quits in a
world with bob (Playing) and eve (still in Login). -/
theorem C2_quit_witness :
    mudABE.heap.get? 0 = some aliceConn ∧
    aliceConn.state = ConnState.playing ∧
    lookupA mudABE.conns aliceConn.name = some 0 ∧
    (mudABE.conns.map Prod.fst).Nodup ∧
    (mudABE.conns.map Prod.snd).Nodup ∧
    (∀ kr ∈ mudABE.conns, kr.2 = 0 → (kr.1 = aliceConn.name ∨ kr.1 = aliceConn.addr)) ∧
    ((quit mudABE 0 aliceConn).conns =
        eraseA (eraseA mudABE.conns aliceConn.name) aliceConn.addr ∧
      lookupA (quit mudABE 0 aliceConn).conns aliceConn.name = none ∧
      lookupA (quit mudABE 0 aliceConn).conns aliceConn.addr = none ∧
      (quit mudABE 0 aliceConn).heap.get? 0 =
        some { aliceConn with outbuf := aliceConn.outbuf ++ ["Bye!\n"], closed := true, state := ConnState.dead } ∧
      (∀ kr ∈ (quit mudABE 0 aliceConn).conns, ∀ c2, mudABE.heap.get? kr.2 = some c2 →
        (quit mudABE 0 aliceConn).heap.get? kr.2 =
          some (if c2.state = ConnState.playing
                then { c2 with outbuf := c2.outbuf ++ [aliceConn.name ++ " has quit.\n"] }
                else c2))) :=
  ⟨by decide, by decide, by decide, by decide, by decide, by decide,
   C2_quit mudABE 0 aliceConn (by decide) (by decide) (by decide) (by decide)
     (by decide) (by decide)⟩

/-- Claim C6: a Playing session saying a non-empty message causes exactly
N+1 deliveries of "<name> says: <message>\n" — one to each registry entry
whose session is in the Playing state, the sender included and counted once
(N is the number of other Playing entries) — zero deliveries to sessions not
in the Playing state, and no registry change. -/
theorem C6_say (m : MudState) (k0 : String) (ref : Nat) (c : Conn) (args : List String)
    (hargs : ¬(args = []))
    (hget : m.heap.get? ref = some c)
    (hplay : c.state = ConnState.playing)
    (hmem : (k0, ref) ∈ m.conns)
    (hvnd : (m.conns.map Prod.snd).Nodup) :
    (playingEntries m.heap m.conns).length =
      ((playingEntries m.heap m.conns).filter (fun kr => !(kr.2 == ref))).length + 1 ∧
    (∀ kr ∈ playingEntries m.heap m.conns, ∀ c2, m.heap.get? kr.2 = some c2 →
      (say m c args).heap.get? kr.2 =
        some { c2 with outbuf := c2.outbuf ++ [c.name ++ " says: " ++ String.intercalate " " args ++ "\n"] }) ∧
    (∀ r, r ∉ (playingEntries m.heap m.conns).map Prod.snd →
      (say m c args).heap.get? r = m.heap.get? r) ∧
    (say m c args).conns = m.conns := by
  have hsubP : (playingEntries m.heap m.conns).Sublist m.conns := List.filter_sublist _
  have hvndP : ((playingEntries m.heap m.conns).map Prod.snd).Nodup :=
    (hsubP.map Prod.snd).nodup hvnd
  have hmemP : (k0, ref) ∈ playingEntries m.heap m.conns := by
    rw [playingEntries, List.mem_filter]
    refine ⟨hmem, ?_⟩
    simp only [isPlayingRef, hget]
    simp [hplay]
  have hemp : args.isEmpty = false := by
    cases args with
    | nil => exact absurd rfl hargs
    | cons a l => rfl
  have hsay : say m c args =
      { m with heap := broadcastList m.heap m.conns (c.name ++ " says: " ++ String.intercalate " " args ++ "\n") } := by
    simp only [say]
    rw [if_neg (by simp [hemp])]
  refine ⟨length_filter_ne_of_mem hvndP hmemP, ?_, ?_, ?_⟩
  · intro kr hkrmem c2 hc2
    have hkrC : kr ∈ m.conns := hsubP.mem hkrmem
    have hkrP : c2.state = ConnState.playing := by
      rw [playingEntries, List.mem_filter] at hkrmem
      have h2 := hkrmem.2
      simp only [isPlayingRef, hc2] at h2
      simpa using h2
    rw [hsay]
    have hb := broadcastList_get?_mem m.conns m.heap
      (c.name ++ " says: " ++ String.intercalate " " args ++ "\n") kr.1 kr.2 c2 hvnd
      (by exact hkrC) hc2
    rw [if_pos hkrP] at hb
    exact hb
  · intro r hr
    rw [hsay]
    by_cases hp : isPlayingRef m.heap r = true
    · have hrc : r ∉ m.conns.map Prod.snd := by
        intro hmem2
        rcases List.mem_map.mp hmem2 with ⟨kr, hkr, hkr2⟩
        apply hr
        rw [List.mem_map]
        refine ⟨kr, ?_, hkr2⟩
        rw [playingEntries, List.mem_filter]
        refine ⟨hkr, ?_⟩
        rw [hkr2]
        exact hp
      exact broadcastList_get?_not_mem _ _ _ _ hrc
    · have hp' : isPlayingRef m.heap r = false := by simpa using hp
      exact broadcastList_get?_not_playing _ _ _ _ hp'
  · rw [hsay]

/-- Witness for C6: alice says "hi there" with bob also Playing and eve in
Login: the Playing entries are alice's and bob's (N + 1 = 2). -/
theorem C6_say_witness :
    ¬((["hi", "there"] : List String) = []) ∧
    mudABE.heap.get? 0 = some aliceConn ∧
    aliceConn.state = ConnState.playing ∧
    ("alice", 0) ∈ mudABE.conns ∧
    (mudABE.conns.map Prod.snd).Nodup ∧
    ((playingEntries mudABE.heap mudABE.conns).length =
        ((playingEntries mudABE.heap mudABE.conns).filter (fun kr => !(kr.2 == 0))).length + 1 ∧
      (∀ kr ∈ playingEntries mudABE.heap mudABE.conns, ∀ c2, mudABE.heap.get? kr.2 = some c2 →
        (say mudABE aliceConn ["hi", "there"]).heap.get? kr.2 =
          some { c2 with outbuf := c2.outbuf ++ [aliceConn.name ++ " says: " ++ String.intercalate " " ["hi", "there"] ++ "\n"] }) ∧
      (∀ r, r ∉ (playingEntries mudABE.heap mudABE.conns).map Prod.snd →
        (say mudABE aliceConn ["hi", "there"]).heap.get? r = mudABE.heap.get? r) ∧
      (say mudABE aliceConn ["hi", "there"]).conns = mudABE.conns) :=
  ⟨by decide, by decide, by decide, by decide, by decide,
   C6_say mudABE "alice" 0 aliceConn ["hi", "there"] (by decide) (by decide) (by decide)
     (by decide) (by decide)⟩

/-- Claim C7: when a Playing session issues say with an empty message
(part_000's `say`, the variant that implements the error response), the
caller — and only the caller — receives "Say what?\n", and nothing is
broadcast to any session, the caller included: every other connection's
buffer is untouched and the registry is unchanged. -/
theorem C7_say_empty (m : MudState) (ref : Nat) (c : Conn)
    (hget : m.heap.get? ref = some c) :
    sayP0 m ref c [] =
      { m with heap := m.heap.set ref { c with outbuf := c.outbuf ++ ["Say what?\n"] } } ∧
    (∀ r2, ¬(r2 = ref) → (sayP0 m ref c []).heap.get? r2 = m.heap.get? r2) ∧
    (sayP0 m ref c []).conns = m.conns := by
  have hs : sayP0 m ref c [] =
      { m with heap := m.heap.set ref { c with outbuf := c.outbuf ++ ["Say what?\n"] } } := by
    simp only [sayP0, writeC, List.isEmpty_nil, hget]
    simp
  refine ⟨hs, ?_, ?_⟩
  · intro r2 hr2
    rw [hs]
    exact get?_set_ne _ _ _ _ (fun he => hr2 he.symm)
  · rw [hs]

/-- Witness for C7: alice issues an empty say in the three-session world;
only her buffer gains "Say what?\n". -/
theorem C7_say_empty_witness :
    mudABE.heap.get? 0 = some aliceConn ∧
    (sayP0 mudABE 0 aliceConn [] =
        { mudABE with heap := mudABE.heap.set 0 { aliceConn with outbuf := aliceConn.outbuf ++ ["Say what?\n"] } } ∧
      (∀ r2, ¬(r2 = 0) → (sayP0 mudABE 0 aliceConn []).heap.get? r2 = mudABE.heap.get? r2) ∧
      (sayP0 mudABE 0 aliceConn []).conns = mudABE.conns) :=
  ⟨by decide, C7_say_empty mudABE 0 aliceConn (by decide)⟩

def c8World : World :=
  addExit (addRoom (addRoom { heap := [newRoom "A" "a", newRoom "B" "b"], rooms := [] } 10000 0 0) 10001 0 1) 0 "east"

/-- Claim C8 counterexample: rooms A at (10000, 0) and B at (10001, 0) — one
step east — linked by `addExit(A, east)`.  The reciprocal west exit is
recorded, but a player at A who moves east lands at (1000, 1000): the
9-character key "100010000" is mis-decoded by the width-4 scan of
`getRoomPositionFromHash`; the subsequent west move then panics on the
missing room, so east-then-west does not return the player to A's original
coordinate. -/
theorem C8_counterexample :
    (move c8World { health := 0, mana := 0, x := 10000, y := 0 } "east").map
        (fun pr => (pr.1.x, pr.1.y)) = some (1000, 1000) ∧
    ((move c8World { health := 0, mana := 0, x := 10000, y := 0 } "east").bind
        (fun pr => move c8World pr.1 "west")) = none ∧
    ¬(((1000 : Int), (1000 : Int)) = ((10001 : Int), (0 : Int))) := by
  decide

theorem addExit_move_roundtrip (w : World) (rA rB : Nat) (A B : Room)
    (d d' : String) (dx dy hh mm x y : Int)
    (hdo : dirOffset d = some (dx, dy))
    (hrd : returnDir d = d')
    (hga : w.heap.get? rA = some A)
    (hgb : w.heap.get? rB = some B)
    (hne : ¬(rA = rB))
    (hAx : A.x = x) (hAy : A.y = y)
    (hregA : lookupA w.rooms (positionHash x y) = some rA)
    (hregB : lookupA w.rooms (positionHash (x + dx) (y + dy)) = some rB)
    (hx0 : 0 ≤ x) (hx1 : x ≤ 9999) (hy0 : 0 ≤ y) (hy1 : y ≤ 9999)
    (hx0' : 0 ≤ x + dx) (hx1' : x + dx ≤ 9999) (hy0' : 0 ≤ y + dy) (hy1' : y + dy ≤ 9999) :
    (addExit w rA d).heap.get? rB =
      some { B with exits := insertA B.exits d' (positionHash x y) } ∧
    lookupA (insertA B.exits d' (positionHash x y)) d' = some (positionHash x y) ∧
    (∃ out1, move (addExit w rA d) { health := hh, mana := mm, x := x, y := y } d =
        some ({ health := hh, mana := mm, x := x + dx, y := y + dy }, out1)) ∧
    (∃ out2, move (addExit w rA d) { health := hh, mana := mm, x := x + dx, y := y + dy } d' =
        some ({ health := hh, mana := mm, x := x, y := y }, out2)) := by
  have hltA : rA < w.heap.length := by
    rcases List.get?_eq_some.mp hga with ⟨h1, _⟩
    exact h1
  have hltB : rB < w.heap.length := by
    rcases List.get?_eq_some.mp hgb with ⟨h1, _⟩
    exact h1
  have hgb1 : (w.heap.set rA { name := A.name, description := A.description, x := x, y := y, exits := insertA A.exits d (positionHash (x + dx) (y + dy)) }).get? rB = some B := by
    rw [get?_set_ne _ _ _ _ hne]
    exact hgb
  have haddexit : addExit w rA d =
      { heap := (w.heap.set rA { name := A.name, description := A.description, x := x, y := y, exits := insertA A.exits d (positionHash (x + dx) (y + dy)) }).set rB { B with exits := insertA B.exits d' (positionHash x y) }, rooms := w.rooms } := by
    simp only [addExit, hga, hdo, hAx, hAy, hregB, hgb1, hrd]
  have hW : (addExit w rA d).rooms = w.rooms := by rw [haddexit]
  have hgB2 : (addExit w rA d).heap.get? rB =
      some { B with exits := insertA B.exits d' (positionHash x y) } := by
    rw [haddexit]
    exact get?_set_self _ _ _ (by simpa using hltB)
  have hgA2 : (addExit w rA d).heap.get? rA =
      some { name := A.name, description := A.description, x := x, y := y, exits := insertA A.exits d (positionHash (x + dx) (y + dy)) } := by
    rw [haddexit]
    rw [get?_set_ne _ _ _ _ (fun he => hne he.symm)]
    exact get?_set_self _ _ _ (by simpa using hltA)
  refine ⟨hgB2, lookupA_insertA_self _ _ _, ?_, ?_⟩
  · refine ⟨("You move " ++ d ++ ".\n") :: look (addExit w rA d) { health := hh, mana := mm, x := x + dx, y := y + dy }, ?_⟩
    simp only [move, getRoomByPosition, hW, hregA, hgA2, lookupA_insertA_self,
      decode_positionHash (x + dx) (y + dy) hx0' hx1' hy0' hy1']
  · refine ⟨("You move " ++ d' ++ ".\n") :: look (addExit w rA d) { health := hh, mana := mm, x := x, y := y }, ?_⟩
    simp only [move, getRoomByPosition, hW, hregB, hgB2, lookupA_insertA_self,
      decode_positionHash x y hx0 hx1 hy0 hy1]

/-- Claim C8 amended: for every pair of distinct rooms A and B whose
coordinate components (and those of the destination one step away) lie in
0..9999 — the domain on which the coordinate string encoding decodes exactly
(see C10) — if `addExit(A, d)` is called for a direction d while B is the
room one step in direction d from A, then afterwards B has an exit in the
opposite direction whose target key is A's coordinate, and a player at A who
moves d and then the opposite direction returns to A's original coordinate;
this holds for all four directions (east↔west and north↔south).  Outside the
0..9999 domain the round trip fails (see the counterexample). -/
theorem C8_amended (w : World) (rA rB : Nat) (A B : Room) (d : String)
    (dx dy hh mm : Int)
    (hdo : dirOffset d = some (dx, dy))
    (hga : w.heap.get? rA = some A)
    (hgb : w.heap.get? rB = some B)
    (hne : ¬(rA = rB))
    (hregA : lookupA w.rooms (positionHash A.x A.y) = some rA)
    (hregB : lookupA w.rooms (positionHash (A.x + dx) (A.y + dy)) = some rB)
    (hx0 : 0 ≤ A.x) (hx1 : A.x ≤ 9999) (hy0 : 0 ≤ A.y) (hy1 : A.y ≤ 9999)
    (hx0' : 0 ≤ A.x + dx) (hx1' : A.x + dx ≤ 9999)
    (hy0' : 0 ≤ A.y + dy) (hy1' : A.y + dy ≤ 9999) :
    (addExit w rA d).heap.get? rB =
      some { B with exits := insertA B.exits (returnDir d) (positionHash A.x A.y) } ∧
    lookupA (insertA B.exits (returnDir d) (positionHash A.x A.y)) (returnDir d) =
      some (positionHash A.x A.y) ∧
    (∃ out1, move (addExit w rA d) { health := hh, mana := mm, x := A.x, y := A.y } d =
        some ({ health := hh, mana := mm, x := A.x + dx, y := A.y + dy }, out1)) ∧
    (∃ out2, move (addExit w rA d) { health := hh, mana := mm, x := A.x + dx, y := A.y + dy } (returnDir d) =
        some ({ health := hh, mana := mm, x := A.x, y := A.y }, out2)) :=
  addExit_move_roundtrip w rA rB A B d (returnDir d) dx dy hh mm A.x A.y hdo rfl
    hga hgb hne rfl rfl hregA hregB hx0 hx1 hy0 hy1 hx0' hx1' hy0' hy1'

def c8WorldB : World :=
  addRoom (addRoom { heap := [newRoom "A" "a", newRoom "B" "b"], rooms := [] } 5 5 0) 6 5 1

def c8RoomA : Room := { name := "A", description := "a", x := 5, y := 5, exits := [] }

def c8RoomB : Room := { name := "B", description := "b", x := 6, y := 5, exits := [] }

/-- Witness for the amended C8: rooms A at (5, 5) and B at (6, 5) with
direction east; after `addExit(A, east)` the reciprocal west exit points at
A and the east-then-west round trip returns to (5, 5). -/
theorem C8_amended_witness :
    dirOffset "east" = some (1, 0) ∧
    c8WorldB.heap.get? 0 = some c8RoomA ∧
    c8WorldB.heap.get? 1 = some c8RoomB ∧
    ¬((0 : Nat) = 1) ∧
    lookupA c8WorldB.rooms (positionHash c8RoomA.x c8RoomA.y) = some 0 ∧
    lookupA c8WorldB.rooms (positionHash (c8RoomA.x + 1) (c8RoomA.y + 0)) = some 1 ∧
    ((addExit c8WorldB 0 "east").heap.get? 1 =
        some { c8RoomB with exits := insertA c8RoomB.exits (returnDir "east") (positionHash c8RoomA.x c8RoomA.y) } ∧
      lookupA (insertA c8RoomB.exits (returnDir "east") (positionHash c8RoomA.x c8RoomA.y)) (returnDir "east") =
        some (positionHash c8RoomA.x c8RoomA.y) ∧
      (∃ out1, move (addExit c8WorldB 0 "east") { health := 0, mana := 0, x := c8RoomA.x, y := c8RoomA.y } "east" =
          some ({ health := 0, mana := 0, x := c8RoomA.x + 1, y := c8RoomA.y + 0 }, out1)) ∧
      (∃ out2, move (addExit c8WorldB 0 "east") { health := 0, mana := 0, x := c8RoomA.x + 1, y := c8RoomA.y + 0 } (returnDir "east") =
          some ({ health := 0, mana := 0, x := c8RoomA.x, y := c8RoomA.y }, out2))) :=
  ⟨by decide, by decide, by decide, by decide, by decide, by decide,
   C8_amended c8WorldB 0 1 c8RoomA c8RoomB "east" 1 0 0 0 (by decide) (by decide)
     (by decide) (by decide) (by decide) (by decide) (by decide) (by decide)
     (by decide) (by decide) (by decide) (by decide) (by decide) (by decide)⟩
